import Mathlib

/-!
Verification development for the sudo-logger program (src/sudo-logger.js).

The JavaScript source is shallowly embedded:
  * byte sequences (Node `Buffer`s) are `List Nat` with values below 256,
  * JavaScript strings are `String` or `List Char`,
  * the external crypto primitives (`pbkdf2`, `aes-256-gcm`) are fields of a
    `Crypto` structure that records the contracts Node documents for them
    (deterministic key derivation; tag-checked authenticated decryption),
  * the git-backed replication layer is represented by the data it hands the
    program: a list of commits, and booleans for pull/push success,
  * each fallible step returns `Option` or an explicit outcome.
-/

namespace SudoLogger

/-! ## Base64 (Buffer.toString('base64') / Buffer.from(_, 'base64')) -/

/-- The base64 alphabet, in index order. -/
def b64Chars : List Char :=
  "ABCDEFGHIJKLMNOPQRSTUVWXYZabcdefghijklmnopqrstuvwxyz0123456789+/".data

/-- Index of a character in a list (length of the list when absent). -/
def idxIn (c : Char) : List Char → Nat
  | [] => 0
  | a :: rest => if a = c then 0 else idxIn c rest + 1

/-- The character encoding a 6-bit value. -/
def sextetToChar (v : Nat) : Char := b64Chars.getD v 'A'

/-- The 6-bit value a base64 character stands for. -/
def sextetOf (c : Char) : Nat := idxIn c b64Chars

/-- Base64 encoding of a byte sequence, with `=` padding. -/
def b64Encode : List Nat → List Char
  | [] => []
  | [b1] =>
    [sextetToChar (b1 / 4), sextetToChar (b1 % 4 * 16), '=', '=']
  | [b1, b2] =>
    [sextetToChar (b1 / 4), sextetToChar (b1 % 4 * 16 + b2 / 16),
     sextetToChar (b2 % 16 * 4), '=']
  | b1 :: b2 :: b3 :: rest =>
    sextetToChar (b1 / 4) :: sextetToChar (b1 % 4 * 16 + b2 / 16) ::
    sextetToChar (b2 % 16 * 4 + b3 / 64) :: sextetToChar (b3 % 64) ::
    b64Encode rest

/-- Base64 decoding back to bytes, honouring `=` padding. -/
def b64Decode : List Char → List Nat
  | c1 :: c2 :: c3 :: c4 :: rest =>
    if c3 = '=' then
      [sextetOf c1 * 4 + sextetOf c2 / 16]
    else if c4 = '=' then
      [sextetOf c1 * 4 + sextetOf c2 / 16,
       sextetOf c2 % 16 * 16 + sextetOf c3 / 4]
    else
      [sextetOf c1 * 4 + sextetOf c2 / 16,
       sextetOf c2 % 16 * 16 + sextetOf c3 / 4,
       sextetOf c3 % 4 * 64 + sextetOf c4] ++
      b64Decode rest
  | [c1, c2] => [sextetOf c1 * 4 + sextetOf c2 / 16]
  | [c1, c2, c3] =>
    [sextetOf c1 * 4 + sextetOf c2 / 16,
     sextetOf c2 % 16 * 16 + sextetOf c3 / 4]
  | _ => []

theorem sextetOf_sextetToChar : ∀ v, v < 64 → sextetOf (sextetToChar v) = v := by
  decide

theorem sextetToChar_ne_pad : ∀ v, v < 64 → sextetToChar v ≠ '=' := by
  decide

/-- Decoding inverts encoding on genuine byte sequences. -/
theorem b64Decode_b64Encode :
    ∀ bs : List Nat, (∀ b ∈ bs, b < 256) → b64Decode (b64Encode bs) = bs
  | [], _ => rfl
  | [b1], h => by
    have hb1 : b1 < 256 := h b1 (by simp)
    have e1 := sextetOf_sextetToChar (b1 / 4) (by omega)
    have e2 := sextetOf_sextetToChar (b1 % 4 * 16) (by omega)
    simp [b64Encode, b64Decode, e1, e2]
    omega
  | [b1, b2], h => by
    have hb1 : b1 < 256 := h b1 (by simp)
    have hb2 : b2 < 256 := h b2 (by simp)
    have n3 := sextetToChar_ne_pad (b2 % 16 * 4) (by omega)
    have e1 := sextetOf_sextetToChar (b1 / 4) (by omega)
    have e2 := sextetOf_sextetToChar (b1 % 4 * 16 + b2 / 16) (by omega)
    have e3 := sextetOf_sextetToChar (b2 % 16 * 4) (by omega)
    simp [b64Encode, b64Decode, n3, e1, e2, e3]
    omega
  | b1 :: b2 :: b3 :: rest, h => by
    have hb1 : b1 < 256 := h b1 (by simp)
    have hb2 : b2 < 256 := h b2 (by simp)
    have hb3 : b3 < 256 := h b3 (by simp)
    have ih := b64Decode_b64Encode rest (fun b hb => h b (by simp [hb]))
    have n3 := sextetToChar_ne_pad (b2 % 16 * 4 + b3 / 64) (by omega)
    have n4 := sextetToChar_ne_pad (b3 % 64) (by omega)
    have e1 := sextetOf_sextetToChar (b1 / 4) (by omega)
    have e2 := sextetOf_sextetToChar (b1 % 4 * 16 + b2 / 16) (by omega)
    have e3 := sextetOf_sextetToChar (b2 % 16 * 4 + b3 / 64) (by omega)
    have e4 := sextetOf_sextetToChar (b3 % 64) (by omega)
    simp [b64Encode, b64Decode, n3, n4, e1, e2, e3, e4, ih]
    omega

/-! ## Codec (functions `encrypt` and `decrypt` of sudo-logger.js)

The external primitives (`pbkdf2Async`, `createCipheriv('aes-256-gcm', ...)`)
are abstracted as a `Crypto` structure whose proof fields record exactly the
contracts Node guarantees for them: key derivation is a function of password
and salt; GCM encryption is invertible by decryption under the same key and
iv; the full 128-bit authentication tag is a function of key, iv and
ciphertext.  `setAuthTag` without an `authTagLength` option accepts the
NIST GCM tag lengths (4, 8 and 12 to 16 bytes), and `decipher.final()`
succeeds precisely when the supplied tag equals the recomputed 16-byte tag
truncated to the supplied length. -/

structure Crypto where
  kdf : List Char → List Nat → List Nat
  encBlock : List Nat → List Nat → List Nat → List Nat
  decBlock : List Nat → List Nat → List Nat → List Nat
  tag : List Nat → List Nat → List Nat → List Nat
  tag_len : ∀ k iv ct, (tag k iv ct).length = 16
  tag_lt : ∀ k iv ct, (∀ b ∈ ct, b < 256) → ∀ b ∈ tag k iv ct, b < 256
  enc_lt : ∀ k iv pt, (∀ b ∈ pt, b < 256) → ∀ b ∈ encBlock k iv pt, b < 256
  dec_enc : ∀ k iv pt, (∀ b ∈ pt, b < 256) → decBlock k iv (encBlock k iv pt) = pt

/-- Embedding of `encrypt(text)`: derive the key from the password and a
fresh salt, encrypt under a fresh iv, and base64-encode
`salt || iv || authTag || encrypted`.  The random salt and iv drawn from
`randomBytes(16)` are explicit arguments. -/
def encrypt (C : Crypto) (password : List Char) (salt iv text : List Nat) :
    List Char :=
  let key := C.kdf password salt
  let encrypted := C.encBlock key iv text
  let authTag := C.tag key iv encrypted
  b64Encode (salt ++ iv ++ authTag ++ encrypted)

/-- Whether `setAuthTag` without an `authTagLength` option accepts a tag of
this byte length for aes-256-gcm: the NIST lengths 4, 8 and 12 to 16. -/
def validTagLength (n : Nat) : Bool :=
  n == 4 || n == 8 || (decide (12 ≤ n) && decide (n ≤ 16))

/-- Embedding of the byte-level part of `decrypt(encryptedText)`: split the
buffer at offsets 16/32/48, re-derive the key from the embedded salt, and
decrypt after verifying the authentication tag.  A tag segment of an
accepted NIST length is verified against the recomputed 16-byte tag
truncated to that length; any other tag length makes `setAuthTag` throw. -/
def decryptBuf (C : Crypto) (password : List Char) (buffer : List Nat) :
    Option (List Nat) :=
  let salt := buffer.take 16
  let iv := (buffer.drop 16).take 16
  let authTag := (buffer.drop 32).take 16
  let encrypted := buffer.drop 48
  let key := C.kdf password salt
  if validTagLength authTag.length then
    if (C.tag key iv encrypted).take authTag.length = authTag then
      some (C.decBlock key iv encrypted)
    else none
  else none

/-- Embedding of `decrypt(encryptedText)`: base64-decode, then process the
buffer.  `none` models a thrown `DecryptionError`. -/
def decrypt (C : Crypto) (password : List Char) (blob : List Char) :
    Option (List Nat) :=
  decryptBuf C password (b64Decode blob)

theorem decode_encrypt_frame (C : Crypto) (password : List Char)
    (salt iv text : List Nat)
    (_hsl : salt.length = 16) (_hil : iv.length = 16)
    (hsb : ∀ b ∈ salt, b < 256) (hib : ∀ b ∈ iv, b < 256)
    (htb : ∀ b ∈ text, b < 256) :
    b64Decode (encrypt C password salt iv text) =
      salt ++ iv ++ C.tag (C.kdf password salt) iv
        (C.encBlock (C.kdf password salt) iv text) ++
        C.encBlock (C.kdf password salt) iv text := by
  apply b64Decode_b64Encode
  intro b hb
  simp only [List.mem_append] at hb
  rcases hb with ((hb | hb) | hb) | hb
  · exact hsb b hb
  · exact hib b hb
  · exact C.tag_lt _ _ _ (C.enc_lt _ _ _ htb) b hb
  · exact C.enc_lt _ _ _ htb b hb

theorem decryptBuf_frame (C : Crypto) (password : List Char)
    (salt iv tg ct : List Nat)
    (hsl : salt.length = 16) (hil : iv.length = 16) (htl : tg.length = 16) :
    decryptBuf C password (salt ++ iv ++ tg ++ ct) =
      (if C.tag (C.kdf password salt) iv ct = tg then
        some (C.decBlock (C.kdf password salt) iv ct)
      else none) := by
  have h1 : (salt ++ iv ++ tg ++ ct) = salt ++ (iv ++ (tg ++ ct)) := by
    simp [List.append_assoc]
  have htake : (salt ++ iv ++ tg ++ ct).take 16 = salt := by
    rw [h1, List.take_left' hsl]
  have hdrop16 : (salt ++ iv ++ tg ++ ct).drop 16 = iv ++ (tg ++ ct) := by
    rw [h1, List.drop_left' hsl]
  have hiv : ((salt ++ iv ++ tg ++ ct).drop 16).take 16 = iv := by
    rw [hdrop16, List.take_left' hil]
  have h2 : (salt ++ iv ++ tg ++ ct) = (salt ++ iv) ++ (tg ++ ct) := by
    simp [List.append_assoc]
  have hln2 : (salt ++ iv).length = 32 := by
    simp [List.length_append, hsl, hil]
  have hdrop32 : (salt ++ iv ++ tg ++ ct).drop 32 = tg ++ ct := by
    rw [h2, List.drop_left' hln2]
  have htg : ((salt ++ iv ++ tg ++ ct).drop 32).take 16 = tg := by
    rw [hdrop32, List.take_left' htl]
  have h3 : (salt ++ iv ++ tg ++ ct) = ((salt ++ iv) ++ tg) ++ ct := by
    simp [List.append_assoc]
  have hln3 : ((salt ++ iv) ++ tg).length = 48 := by
    simp [List.length_append, hsl, hil, htl]
  have hct : (salt ++ iv ++ tg ++ ct).drop 48 = ct := by
    rw [h3, List.drop_left' hln3]
  have htk : (C.tag (C.kdf password salt) iv ct).take 16 =
      C.tag (C.kdf password salt) iv ct := by
    have h := C.tag_len (C.kdf password salt) iv ct
    rw [← h, List.take_length]
  unfold decryptBuf
  simp only [htake, hiv, htg, hct, htl, htk]
  simp [validTagLength]

/-- C2.  Decrypting an encrypted blob with the password it was produced
under recovers the plaintext, for every crypto backend satisfying the
`Crypto` contract, every 16-byte salt and iv, and every byte plaintext. -/
theorem decrypt_encrypt_roundtrip (C : Crypto) (password : List Char)
    (salt iv text : List Nat)
    (hsl : salt.length = 16) (hil : iv.length = 16)
    (hsb : ∀ b ∈ salt, b < 256) (hib : ∀ b ∈ iv, b < 256)
    (htb : ∀ b ∈ text, b < 256) :
    decrypt C password (encrypt C password salt iv text) = some text := by
  unfold decrypt
  rw [decode_encrypt_frame C password salt iv text hsl hil hsb hib htb]
  rw [decryptBuf_frame C password _ _ _ _ hsl hil (C.tag_len _ _ _)]
  rw [if_pos rfl, C.dec_enc _ _ _ htb]

/-- C8, amended.  Decryption fails (throws `DecryptionError`, modelled as
`none`) when the password is wrong — the tag recomputed under the key
derived from the other password disagrees with the stored tag — and
likewise on a blob whose 16-byte tag was altered, and on a blob whose tag
segment is not of an accepted NIST GCM tag length — in particular on any
blob shorter than 36 bytes, too short to carry even a 4-byte tag. -/
theorem decrypt_failure_cases (C : Crypto) (pw1 pw2 : List Char)
    (salt iv text tagAlt buf : List Nat)
    (hsl : salt.length = 16) (hil : iv.length = 16)
    (hsb : ∀ b ∈ salt, b < 256) (hib : ∀ b ∈ iv, b < 256)
    (htb : ∀ b ∈ text, b < 256)
    (hne : C.tag (C.kdf pw2 salt) iv (C.encBlock (C.kdf pw1 salt) iv text) ≠
      C.tag (C.kdf pw1 salt) iv (C.encBlock (C.kdf pw1 salt) iv text))
    (halt : tagAlt ≠ C.tag (C.kdf pw1 salt) iv
      (C.encBlock (C.kdf pw1 salt) iv text))
    (haltlen : tagAlt.length = 16)
    (hbuf : buf.length < 36) :
    decrypt C pw2 (encrypt C pw1 salt iv text) = none ∧
    decryptBuf C pw1
      (salt ++ iv ++ tagAlt ++ C.encBlock (C.kdf pw1 salt) iv text) = none ∧
    decryptBuf C pw1 buf = none := by
  refine ⟨?_, ?_, ?_⟩
  · unfold decrypt
    rw [decode_encrypt_frame C pw1 salt iv text hsl hil hsb hib htb]
    rw [decryptBuf_frame C pw2 _ _ _ _ hsl hil (C.tag_len _ _ _)]
    rw [if_neg hne]
  · rw [decryptBuf_frame C pw1 _ _ _ _ hsl hil haltlen]
    rw [if_neg (Ne.symm halt)]
  · have hshort : ((buf.drop 32).take 16).length ≤ 3 := by
      simp only [List.length_take, List.length_drop]
      omega
    have hv : validTagLength ((buf.drop 32).take 16).length = false := by
      revert hshort
      generalize ((buf.drop 32).take 16).length = n
      intro hn
      simp only [validTagLength, Bool.or_eq_false_iff, Bool.and_eq_false_iff,
        beq_eq_false_iff_ne, decide_eq_false_iff_not]
      omega
    unfold decryptBuf
    simp only [hv]
    simp

/-! ### A concrete backend satisfying the `Crypto` contract, for witnesses -/

/-- Folds a password into a single byte. -/
def pwByte (pw : List Char) : Nat := pw.foldl (fun a c => (a + c.toNat) % 256) 0

/-- A degenerate but contract-satisfying crypto backend: the derived key is
32 copies of a password byte, the cipher is the identity and the tag is the
first 16 key bytes. -/
def cryptoToy : Crypto where
  kdf pw _salt := List.replicate 32 (pwByte pw)
  encBlock _k _iv pt := pt
  decBlock _k _iv ct := ct
  tag k _iv _ct := (k.map (fun b => b % 256) ++ List.replicate 16 0).take 16
  tag_len := by
    intro k iv ct
    simp [List.length_take, List.length_append]
  tag_lt := by
    intro k iv ct _ b hb
    rcases List.mem_append.1 (List.mem_of_mem_take hb) with h | h
    · rcases List.mem_map.1 h with ⟨x, _, rfl⟩
      omega
    · simp [List.eq_of_mem_replicate h]
  enc_lt := by
    intro k iv pt h b hb
    exact h b hb
  dec_enc := by
    intro k iv pt _
    rfl

/-- Witness for C2 at a concrete password, salt, iv and plaintext. -/
theorem decrypt_encrypt_roundtrip_witness :
    decrypt cryptoToy "secret".data
      (encrypt cryptoToy "secret".data (List.replicate 16 0)
        (List.replicate 16 1) [104, 105]) = some [104, 105] :=
  decrypt_encrypt_roundtrip cryptoToy "secret".data _ _ _
    (by decide) (by decide) (by decide) (by decide) (by decide)

/-- Witness for C8 at concrete distinct passwords, an altered tag and a
truncated blob. -/
theorem decrypt_failure_cases_witness :
    decrypt cryptoToy "b".data
      (encrypt cryptoToy "a".data (List.replicate 16 0)
        (List.replicate 16 1) [104, 105]) = none ∧
    decryptBuf cryptoToy "a".data
      (List.replicate 16 0 ++ List.replicate 16 1 ++ List.replicate 16 5 ++
        cryptoToy.encBlock (cryptoToy.kdf "a".data (List.replicate 16 0))
          (List.replicate 16 1) [104, 105]) = none ∧
    decryptBuf cryptoToy "a".data [1, 2, 3] = none :=
  decrypt_failure_cases cryptoToy "a".data "b".data
    (List.replicate 16 0) (List.replicate 16 1) [104, 105]
    (List.replicate 16 5) [1, 2, 3]
    (by decide) (by decide) (by decide) (by decide) (by decide)
    (by decide) (by decide) (by decide) (by decide)

/-- A 44-byte blob: 16 salt bytes, 16 iv bytes, and a 12-byte tag segment
that is the 16-byte tag of the empty ciphertext truncated to 12 bytes. -/
def wrongLenBlob : List Nat :=
  List.replicate 16 0 ++ List.replicate 16 1 ++ List.replicate 12 97

/-- C8, counterexample.  Not every wrong-length blob fails to decrypt: this
44-byte blob is the first 44 bytes of a genuine encryption of the empty
plaintext, its 12-byte tag segment is an accepted NIST GCM tag length, the
truncated tag verifies, and decryption succeeds, returning the empty
plaintext — where the claim requires a `DecryptionError`. -/
theorem wrong_length_blob_decrypts :
    (b64Decode (encrypt cryptoToy "a".data (List.replicate 16 0)
      (List.replicate 16 1) [])).take 44 = wrongLenBlob ∧
    wrongLenBlob.length = 44 ∧
    decrypt cryptoToy "a".data (b64Encode wrongLenBlob) = some [] := by
  refine ⟨by decide, by decide, by decide⟩

/-! ## Tamper Detector (function `checkForTampering` of sudo-logger.js) -/

/-- Splitting a character sequence at newline characters, the embedding of
JavaScript `diff.split('\n')`. -/
def splitNl : List Char → List (List Char)
  | [] => [[]]
  | c :: rest =>
    match splitNl rest with
    | [] => [[]]
    | line :: more =>
      if c = '\n' then [] :: line :: more else (c :: line) :: more

/-- One commit of the log file's history, as surfaced by the replication
layer: `git log` metadata plus the output of `git show` restricted to the
log file (`none` when retrieving the diff failed and the commit is skipped). -/
structure Commit where
  hash : List Char
  author : List Char
  date : List Char
  message : List Char
  diff : Option (List Char)
deriving DecidableEq

/-- One suspicious-commit record pushed onto `tamperedCommits`. -/
structure TamperInfo where
  hash : List Char
  author : List Char
  date : List Char
  deletions : Nat
  message : List Char
deriving DecidableEq

/-- The addition/deletion counting loop of `checkForTampering`: lines
starting with `-` but not `---` count as deletions, lines starting with `+`
but not `+++` count as additions.  Returns `(additions, deletions)`. -/
def countDiff (lines : List (List Char)) : Nat × Nat :=
  lines.foldl
    (fun ad line =>
      let ad :=
        if "-".data.isPrefixOf line && !("---".data.isPrefixOf line) then
          (ad.1, ad.2 + 1)
        else ad
      if "+".data.isPrefixOf line && !("+++".data.isPrefixOf line) then
        (ad.1 + 1, ad.2)
      else ad)
    (0, 0)

/-- The per-commit body of `checkForTampering`'s loop: count the diff and
push a record exactly when `deletions > additions + 2`, carrying
`deletions - 2`.  A commit whose diff could not be retrieved is skipped. -/
def classify (c : Commit) : Option TamperInfo :=
  match c.diff with
  | none => none
  | some d =>
    let ad := countDiff (splitNl d)
    if ad.2 > ad.1 + 2 then
      some { hash := c.hash, author := c.author, date := c.date,
             deletions := ad.2 - 2, message := c.message }
    else none

/-- Embedding of `checkForTampering` over the commits touching the log file. -/
def checkForTampering (commits : List Commit) : List TamperInfo :=
  commits.filterMap classify

theorem classify_none (c : Commit) (hd : c.diff = none) : classify c = none := by
  cases c with
  | mk h a dt m df => cases hd; rfl

theorem classify_some (c : Commit) (d : List Char) (hd : c.diff = some d) :
    classify c =
      if (countDiff (splitNl d)).2 > (countDiff (splitNl d)).1 + 2 then
        some { hash := c.hash, author := c.author, date := c.date,
               deletions := (countDiff (splitNl d)).2 - 2,
               message := c.message }
      else none := by
  cases c with
  | mk h a dt m df => cases hd; rfl

/-- C3.  A record is produced for a commit exactly when the counted
deletions of its retrievable diff exceed the counted additions by more than
the tolerance of 2, and the record then carries `deletions - 2`. -/
theorem tamper_classification (commits : List Commit) (r : TamperInfo) :
    r ∈ checkForTampering commits ↔
      ∃ c ∈ commits, ∃ d, c.diff = some d ∧
        (countDiff (splitNl d)).2 > (countDiff (splitNl d)).1 + 2 ∧
        r = { hash := c.hash, author := c.author, date := c.date,
              deletions := (countDiff (splitNl d)).2 - 2,
              message := c.message } := by
  unfold checkForTampering
  rw [List.mem_filterMap]
  constructor
  · rintro ⟨c, hc, hcl⟩
    refine ⟨c, hc, ?_⟩
    cases hd : c.diff with
    | none => rw [classify_none c hd] at hcl; exact absurd hcl (by simp)
    | some d =>
      rw [classify_some c d hd] at hcl
      by_cases hgt : (countDiff (splitNl d)).2 > (countDiff (splitNl d)).1 + 2
      · rw [if_pos hgt] at hcl
        exact ⟨d, rfl, hgt, (Option.some.injEq _ _ ▸ hcl).symm⟩
      · rw [if_neg hgt] at hcl
        exact absurd hcl (by simp)
  · rintro ⟨c, hc, d, hd, hgt, hr⟩
    refine ⟨c, hc, ?_⟩
    rw [classify_some c d hd, if_pos hgt, hr]

/-- The spec's example diff for C4: three added lines and five removed
lines. -/
def demoDiff : List Char :=
  "+a\n+b\n+c\n-a\n-b\n-c\n-d\n-e".data

/-- A commit whose diff counts three additions and five deletions. -/
def demoCommit : Commit :=
  { hash := "0123456abcd".data, author := "mallory".data,
    date := "2025-01-01".data, message := "edit".data,
    diff := some demoDiff }

/-- C4, counterexample.  The claimed input — a diff counting 3 additions and
5 deletions — is classified as NOT suspicious by the code, since the
suspicion test requires `deletions > additions + 2` and `5 > 3 + 2` fails;
no record (in particular none with `deletionCount = 1`) is produced. -/
theorem tamper_three_five_counterexample :
    countDiff (splitNl demoDiff) = (3, 5) ∧ classify demoCommit = none := by
  constructor <;> rfl

/-- C4, amended.  A commit whose diff counts exactly 3 additions and 5
deletions is classified as not suspicious: 5 does not exceed 3 + 2. -/
theorem tamper_three_five_within_tolerance (c : Commit) (d : List Char)
    (hd : c.diff = some d) (hcount : countDiff (splitNl d) = (3, 5)) :
    classify c = none := by
  rw [classify_some c d hd, hcount]
  simp

/-- Witness for the amended C4 at the concrete example diff. -/
theorem tamper_three_five_within_tolerance_witness :
    demoCommit.diff = some demoDiff ∧
    countDiff (splitNl demoDiff) = (3, 5) ∧
    classify demoCommit = none :=
  ⟨rfl, rfl, tamper_three_five_within_tolerance demoCommit demoDiff rfl rfl⟩

/-! ## Entry Store (function `saveToRepo` of sudo-logger.js) -/

/-- One record of the persisted log document: `{id, encrypted}`. -/
structure EncryptedRecord where
  id : Nat
  encrypted : List Char
deriving DecidableEq

/-- The load step of `saveToRepo` and of `getLoggedTamperCommits`: an absent
or unparseable log file degrades to the empty sequence.  The store state is
`none` when the file is absent or does not parse. -/
def loadLogs : Option (List EncryptedRecord) → List EncryptedRecord
  | none => []
  | some logs => logs

/-- Embedding of `saveToRepo(encryptedEntry)`: load, append
`{id: logs.length + 1, encrypted: encryptedEntry}`, rewrite the document. -/
def saveToRepo (store : Option (List EncryptedRecord))
    (encryptedEntry : List Char) : List EncryptedRecord :=
  let logs := loadLogs store
  logs ++ [{ id := logs.length + 1, encrypted := encryptedEntry }]

/-- A sequence of `saveToRepo` calls, each rereading the document the
previous one wrote. -/
def appendAll (blobs : List (List Char))
    (store : Option (List EncryptedRecord)) : List EncryptedRecord :=
  match blobs with
  | [] => loadLogs store
  | b :: bs => appendAll bs (some (saveToRepo store b))

theorem appendAll_ids (blobs : List (List Char)) :
    ∀ store, (appendAll blobs store).map EncryptedRecord.id =
      (loadLogs store).map EncryptedRecord.id ++
        List.range' ((loadLogs store).length + 1) blobs.length := by
  induction blobs with
  | nil => intro store; simp [appendAll]
  | cons b bs ih =>
    intro store
    have hlen : (loadLogs (some (saveToRepo store b))).length =
        (loadLogs store).length + 1 := by
      simp [loadLogs, saveToRepo]
    have hmap : (loadLogs (some (saveToRepo store b))).map EncryptedRecord.id =
        (loadLogs store).map EncryptedRecord.id ++
          [(loadLogs store).length + 1] := by
      simp [loadLogs, saveToRepo]
    rw [appendAll, ih, hmap, hlen]
    simp [List.range'_succ, List.append_assoc]

/-- C6.  Appending `n` blobs to an empty (absent or unparseable) store
yields ids `1..n` in order, and each single append assigns
`id = current record count + 1`. -/
theorem append_ids_sequential :
    (∀ blobs, (appendAll blobs none).map EncryptedRecord.id =
      List.range' 1 blobs.length) ∧
    ∀ store b, (saveToRepo store b).map EncryptedRecord.id =
      (loadLogs store).map EncryptedRecord.id ++
        [(loadLogs store).length + 1] := by
  constructor
  · intro blobs
    have := appendAll_ids blobs none
    simpa [loadLogs] using this
  · intro store b
    simp [saveToRepo]

/-! ## Log entries and tamper warnings
(functions `createLogEntry`, `logTamperingWarning`, `getLoggedTamperCommits`)

The orchestrator handles entries through the composite
`encrypt ∘ JSON.stringify` / `JSON.parse ∘ decrypt`; those composites appear
below as the function parameters `enc : LogEntry → List Char` and
`dec : List Char → Option LogEntry` (decryption or parsing failure is
`none`), so the statements quantify over every codec. -/

/-- The plaintext log entry `JSON.stringify`-ed and encrypted by the
program.  `exitCode = none` models JSON `null`. -/
structure LogEntry where
  timestamp : List Char
  user : List Char
  hostname : List Char
  command : List Char
  exitCode : Option Int
  output : List Char
  cwd : List Char
deriving DecidableEq

/-- Ambient per-invocation data (clock, user, host, working directory). -/
structure Ctx where
  timestamp : List Char
  user : List Char
  hostname : List Char
  cwd : List Char
deriving DecidableEq

/-- Embedding of `createLogEntry(command)`: the ordinary entry written
before execution, with unknown exit code and empty output. -/
def createLogEntry (ctx : Ctx) (command : List Char) : LogEntry :=
  { timestamp := ctx.timestamp, user := ctx.user, hostname := ctx.hostname,
    command := command, exitCode := none, output := [], cwd := ctx.cwd }

/-- The character for a decimal digit value. -/
def digitChar (n : Nat) : Char := Char.ofNat (48 + n % 10)

/-- Fuel-indexed decimal rendering loop. -/
def decDigitsCore : Nat → Nat → List Char → List Char
  | 0, _, acc => acc
  | fuel + 1, n, acc =>
    if n < 10 then digitChar n :: acc
    else decDigitsCore fuel (n / 10) (digitChar (n % 10) :: acc)

/-- Decimal rendering of a number, the embedding of JavaScript `${n}` for a
non-negative integer. -/
def decDigits (n : Nat) : List Char := decDigitsCore (n + 1) n []

/-- The `command` field of a tamper-warning entry, as built by
`logTamperingWarning`. -/
def markerCmd (t : TamperInfo) : List Char :=
  "[TAMPERING DETECTED] ".data ++ decDigits t.deletions ++
    " log entries deleted in commit ".data ++ t.hash.take 7 ++
    " by ".data ++ t.author

/-- The `output` field of a tamper-warning entry. -/
def tamperOutput (t : TamperInfo) : List Char :=
  "WARNING: Audit log tampering detected!\nCommit: ".data ++ t.hash ++
    "\nAuthor: ".data ++ t.author ++ "\nDate: ".data ++ t.date ++
    "\nMessage: ".data ++ t.message ++ "\nDeletions: ".data ++
    decDigits t.deletions ++ " entries".data

/-- Embedding of `logTamperingWarning(tamperInfo)` up to encryption: the
synthesized tamper-warning entry, with the `-1` exit sentinel. -/
def tamperEntry (ctx : Ctx) (t : TamperInfo) : LogEntry :=
  { timestamp := ctx.timestamp, user := ctx.user, hostname := ctx.hostname,
    command := markerCmd t, exitCode := some (-1),
    output := tamperOutput t, cwd := ctx.cwd }

/-- Substring test, the embedding of JavaScript `String.includes`. -/
def containsSub (pat : List Char) : List Char → Bool
  | [] => pat.isEmpty
  | c :: rest => pat.isPrefixOf (c :: rest) || containsSub pat rest

/-- Membership in the character class `[a-f0-9]`. -/
def hexLower (c : Char) : Bool :=
  (97 ≤ c.toNat && c.toNat ≤ 102) || (48 ≤ c.toNat && c.toNat ≤ 57)

/-- One attempted match of the regular expression `commit ([a-f0-9]{7})` at
the head of the sequence. -/
def hashAt (s : List Char) : Option (List Char) :=
  if "commit ".data.isPrefixOf s then
    let h := (s.drop 7).take 7
    if h.length == 7 && h.all hexLower then some h else none
  else none

/-- The embedding of `command.match(/commit ([a-f0-9]{7})/)`: the regex
engine tries each start position from the left and captures at the first
position where `commit ` is followed by seven `[a-f0-9]` characters. -/
def findHash : List Char → Option (List Char)
  | [] => none
  | c :: rest =>
    match hashAt (c :: rest) with
    | some h => some h
    | none => findHash rest

/-- The body of `getLoggedTamperCommits`' loop over records: decrypt (skip
on failure), keep entries whose command carries the tamper marker, and add
the extracted 7-character hash to the set.  The source's
`decrypted.command && ...` truthiness guard is subsumed: the nonempty marker
is never contained in an empty command. -/
def loggedStep (dec : List Char → Option LogEntry)
    (acc : List (List Char)) (r : EncryptedRecord) : List (List Char) :=
  match dec r.encrypted with
  | none => acc
  | some e =>
    if containsSub "[TAMPERING DETECTED]".data e.command then
      match findHash e.command with
      | some h => if h ∈ acc then acc else h :: acc
      | none => acc
    else acc

/-- Embedding of `getLoggedTamperCommits()`: the set (as a duplicate-free
list) of commit-hash prefixes already recorded as tampering; an absent or
unparseable store yields the empty set. -/
def getLoggedTamperCommits (dec : List Char → Option LogEntry)
    (store : Option (List EncryptedRecord)) : List (List Char) :=
  match store with
  | none => []
  | some logs => logs.foldl (loggedStep dec) []

/-- The body of `main`'s reporting loop over `tamperedCommits`: append an
encrypted tamper-warning entry unless the commit's 7-character short hash is
in the already-logged set. -/
def tamperReportStep (enc : LogEntry → List Char) (ctx : Ctx)
    (alreadyLogged : List (List Char)) (st : Option (List EncryptedRecord))
    (t : TamperInfo) : Option (List EncryptedRecord) :=
  if t.hash.take 7 ∈ alreadyLogged then st
  else some (saveToRepo st (enc (tamperEntry ctx t)))

/-- Embedding of steps 3-4 of `main` (tamper scan and report): compute the
suspicious commits and the already-reported set, then append one encrypted
tamper-warning entry per suspicious commit whose short hash is not yet
reported. -/
def tamperStep (dec : List Char → Option LogEntry)
    (enc : LogEntry → List Char) (ctx : Ctx) (commits : List Commit)
    (store : Option (List EncryptedRecord)) : Option (List EncryptedRecord) :=
  (checkForTampering commits).foldl
    (tamperReportStep enc ctx (getLoggedTamperCommits dec store)) store

theorem digitChar_ne_c (n : Nat) : digitChar n ≠ 'c' := by
  have hlt : n % 10 < 10 := Nat.mod_lt _ (by omega)
  have hall : ∀ k, k < 10 → Char.ofNat (48 + k) ≠ 'c' := by decide
  have := hall (n % 10) hlt
  simpa [digitChar, Nat.mod_mod_of_dvd] using this

theorem decDigitsCore_ne_c :
    ∀ fuel n acc, (∀ ch ∈ acc, ch ≠ 'c') →
      ∀ ch ∈ decDigitsCore fuel n acc, ch ≠ 'c'
  | 0, _, _, hacc => hacc
  | fuel + 1, n, acc, hacc => by
    unfold decDigitsCore
    split
    · intro ch hch
      rcases List.mem_cons.1 hch with rfl | h
      · exact digitChar_ne_c n
      · exact hacc ch h
    · refine decDigitsCore_ne_c fuel (n / 10) _ ?_
      intro ch hch
      rcases List.mem_cons.1 hch with rfl | h
      · exact digitChar_ne_c (n % 10) -- digitChar (n % 10) with inner mod
      · exact hacc ch h

theorem decDigits_ne_c (n : Nat) : ∀ ch ∈ decDigits n, ch ≠ 'c' :=
  decDigitsCore_ne_c (n + 1) n [] (by simp)

theorem commit_prefix_head (c : Char) (rest : List Char) (hc : c ≠ 'c') :
    "commit ".data.isPrefixOf (c :: rest) = false := by
  have hb : ('c' == c) = false := beq_eq_false_iff_ne.2 (Ne.symm hc)
  show (('c' == c) && ("ommit ".data.isPrefixOf rest)) = false
  rw [hb, Bool.false_and]

theorem findHash_append (p s : List Char) (hp : ∀ ch ∈ p, ch ≠ 'c') :
    findHash (p ++ s) = findHash s := by
  induction p with
  | nil => rfl
  | cons c p ih =>
    have hc : c ≠ 'c' := hp c (by simp)
    have hrest : ∀ ch ∈ p, ch ≠ 'c' := fun ch h => hp ch (by simp [h])
    have hat : hashAt (c :: (p ++ s)) = none := by
      unfold hashAt
      rw [commit_prefix_head c (p ++ s) hc]
      simp
    rw [List.cons_append]
    show (match hashAt (c :: (p ++ s)) with
      | some h => some h
      | none => findHash (p ++ s)) = findHash s
    rw [hat, ih hrest]

theorem findHash_commit (h rest : List Char) (hlen : h.length = 7)
    (hhex : h.all hexLower = true) :
    findHash ("commit ".data ++ (h ++ rest)) = some h := by
  have hpre : "commit ".data.isPrefixOf ("commit ".data ++ (h ++ rest)) = true :=
    List.isPrefixOf_iff_prefix.2 (List.prefix_append _ _)
  have hlen7 : ("commit ".data).length = 7 := rfl
  have hdrop : ("commit ".data ++ (h ++ rest)).drop 7 = h ++ rest :=
    List.drop_left' hlen7
  have htake : (h ++ rest).take 7 = h := List.take_left' hlen
  have hat : hashAt ("commit ".data ++ (h ++ rest)) = some h := by
    unfold hashAt
    rw [hdrop, htake, hpre]
    simp [hlen, hhex]
  show (match hashAt ("commit ".data ++ (h ++ rest)) with
    | some h => some h
    | none => findHash ("ommit ".data ++ (h ++ rest))) = some h
  rw [hat]

theorem containsSub_append_self (p s : List Char) :
    containsSub p (p ++ s) = true := by
  cases p with
  | nil =>
    cases s with
    | nil => rfl
    | cons c r => simp [containsSub, List.isPrefixOf]
  | cons a as =>
    have hpre : (a :: as).isPrefixOf (a :: (as ++ s)) = true :=
      List.isPrefixOf_iff_prefix.2 (List.prefix_append _ _)
    rw [List.cons_append, containsSub, hpre, Bool.true_or]

theorem markerCmd_contains (t : TamperInfo) :
    containsSub "[TAMPERING DETECTED]".data (markerCmd t) = true := by
  have hsplit : "[TAMPERING DETECTED] ".data =
      "[TAMPERING DETECTED]".data ++ " ".data := by decide
  have hshape : markerCmd t = "[TAMPERING DETECTED]".data ++
      (" ".data ++ (decDigits t.deletions ++
        (" log entries deleted in commit ".data ++ (t.hash.take 7 ++
          (" by ".data ++ t.author))))) := by
    unfold markerCmd
    rw [hsplit]
    simp [List.append_assoc]
  rw [hshape]
  exact containsSub_append_self _ _

theorem markerCmd_findHash (t : TamperInfo)
    (hlen : (t.hash.take 7).length = 7)
    (hhex : (t.hash.take 7).all hexLower = true) :
    findHash (markerCmd t) = some (t.hash.take 7) := by
  have hsplit : " log entries deleted in commit ".data =
      " log entries deleted in ".data ++ "commit ".data := by decide
  have hshape : markerCmd t =
      ("[TAMPERING DETECTED] ".data ++ (decDigits t.deletions ++
        " log entries deleted in ".data)) ++
      ("commit ".data ++ (t.hash.take 7 ++ (" by ".data ++ t.author))) := by
    unfold markerCmd
    rw [hsplit]
    simp [List.append_assoc]
  have hA : ∀ ch ∈ "[TAMPERING DETECTED] ".data, ch ≠ 'c' := by decide
  have hB : ∀ ch ∈ " log entries deleted in ".data, ch ≠ 'c' := by decide
  have hnoc : ∀ ch ∈ ("[TAMPERING DETECTED] ".data ++
      (decDigits t.deletions ++ " log entries deleted in ".data)), ch ≠ 'c' := by
    intro ch hch
    rcases List.mem_append.1 hch with h | h
    · exact hA ch h
    · rcases List.mem_append.1 h with h | h
      · exact decDigits_ne_c t.deletions ch h
      · exact hB ch h
  rw [hshape, findHash_append _ _ hnoc, findHash_commit _ _ hlen hhex]

theorem loggedStep_mem (dec : List Char → Option LogEntry)
    (acc : List (List Char)) (r : EncryptedRecord) (x : List Char)
    (hx : x ∈ acc) : x ∈ loggedStep dec acc r := by
  unfold loggedStep
  split
  · exact hx
  · split
    · split
      · split
        · exact hx
        · exact List.mem_cons_of_mem _ hx
      · exact hx
    · exact hx

theorem loggedStep_self (dec : List Char → Option LogEntry)
    (acc : List (List Char)) (r : EncryptedRecord) (e : LogEntry)
    (h : List Char) (hde : dec r.encrypted = some e)
    (hct : containsSub "[TAMPERING DETECTED]".data e.command = true)
    (hfh : findHash e.command = some h) :
    h ∈ loggedStep dec acc r := by
  simp only [loggedStep, hde, hct, hfh, if_true]
  by_cases hmem : h ∈ acc
  · rw [if_pos hmem]; exact hmem
  · rw [if_neg hmem]; exact List.mem_cons_self _ _

theorem loggedFold_mem (dec : List Char → Option LogEntry)
    (logs : List EncryptedRecord) :
    ∀ acc x, x ∈ acc → x ∈ logs.foldl (loggedStep dec) acc := by
  induction logs with
  | nil => intro acc x hx; exact hx
  | cons r rs ih =>
    intro acc x hx
    exact ih _ _ (loggedStep_mem dec acc r x hx)

theorem getLogged_saveToRepo_eq (dec : List Char → Option LogEntry)
    (logs : List EncryptedRecord) (b : List Char) :
    getLoggedTamperCommits dec (some (saveToRepo (some logs) b)) =
      loggedStep dec (logs.foldl (loggedStep dec) [])
        { id := logs.length + 1, encrypted := b } := by
  show (logs ++ [{ id := logs.length + 1, encrypted := b }] :
    List EncryptedRecord).foldl (loggedStep dec) [] = _
  rw [List.foldl_append]
  rfl

theorem getLogged_mem_saveToRepo (dec : List Char → Option LogEntry)
    (store : Option (List EncryptedRecord)) (b : List Char) (x : List Char)
    (hx : x ∈ getLoggedTamperCommits dec store) :
    x ∈ getLoggedTamperCommits dec (some (saveToRepo store b)) := by
  cases store with
  | none => exact absurd hx (by simp [getLoggedTamperCommits])
  | some logs =>
    rw [getLogged_saveToRepo_eq]
    exact loggedStep_mem dec _ _ x hx

theorem getLogged_self_saveToRepo (dec : List Char → Option LogEntry)
    (store : Option (List EncryptedRecord)) (b : List Char) (e : LogEntry)
    (h : List Char) (hde : dec b = some e)
    (hct : containsSub "[TAMPERING DETECTED]".data e.command = true)
    (hfh : findHash e.command = some h) :
    h ∈ getLoggedTamperCommits dec (some (saveToRepo store b)) := by
  cases store with
  | none =>
    show h ∈ loggedStep dec [] { id := 1, encrypted := b }
    exact loggedStep_self dec [] _ e h hde hct hfh
  | some logs =>
    rw [getLogged_saveToRepo_eq]
    exact loggedStep_self dec _ _ e h hde hct hfh

theorem reportStep_mono (dec : List Char → Option LogEntry)
    (enc : LogEntry → List Char) (ctx : Ctx) (already : List (List Char))
    (st : Option (List EncryptedRecord)) (t : TamperInfo) (x : List Char)
    (hx : x ∈ getLoggedTamperCommits dec st) :
    x ∈ getLoggedTamperCommits dec (tamperReportStep enc ctx already st t) := by
  unfold tamperReportStep
  split
  · exact hx
  · exact getLogged_mem_saveToRepo dec st _ x hx

theorem reportFold_mono (dec : List Char → Option LogEntry)
    (enc : LogEntry → List Char) (ctx : Ctx) (already : List (List Char))
    (ts : List TamperInfo) :
    ∀ st x, x ∈ getLoggedTamperCommits dec st →
      x ∈ getLoggedTamperCommits dec
        (ts.foldl (tamperReportStep enc ctx already) st) := by
  induction ts with
  | nil => intro st x hx; exact hx
  | cons t0 ts ih =>
    intro st x hx
    rw [List.foldl_cons]
    exact ih _ x (reportStep_mono dec enc ctx already st t0 x hx)

theorem reportFold_logged (dec : List Char → Option LogEntry)
    (enc : LogEntry → List Char) (ctx : Ctx) (already : List (List Char))
    (ts : List TamperInfo) :
    ∀ st,
      (∀ x ∈ already, x ∈ getLoggedTamperCommits dec st) →
      (∀ t ∈ ts, dec (enc (tamperEntry ctx t)) = some (tamperEntry ctx t)) →
      (∀ t ∈ ts, (t.hash.take 7).length = 7 ∧
        (t.hash.take 7).all hexLower = true) →
      ∀ t ∈ ts, t.hash.take 7 ∈ getLoggedTamperCommits dec
        (ts.foldl (tamperReportStep enc ctx already) st) := by
  induction ts with
  | nil => intro st _ _ _ t ht; exact absurd ht (by simp)
  | cons t0 ts ih =>
    intro st hsub hrt hok t ht
    rw [List.foldl_cons]
    have hsub' : ∀ x ∈ already,
        x ∈ getLoggedTamperCommits dec (tamperReportStep enc ctx already st t0) :=
      fun x hx => reportStep_mono dec enc ctx already st t0 x (hsub x hx)
    rcases List.mem_cons.1 ht with rfl | hts
    · apply reportFold_mono dec enc ctx already ts
      unfold tamperReportStep
      by_cases hmem : t.hash.take 7 ∈ already
      · rw [if_pos hmem]
        exact hsub _ hmem
      · rw [if_neg hmem]
        exact getLogged_self_saveToRepo dec st _ _ _
          (hrt t (by simp)) (markerCmd_contains t)
          (markerCmd_findHash t (hok t (by simp)).1 (hok t (by simp)).2)
    · exact ih _ hsub' (fun t' h' => hrt t' (by simp [h']))
        (fun t' h' => hok t' (by simp [h'])) t hts

theorem reportFold_skip (enc : LogEntry → List Char) (ctx : Ctx)
    (already : List (List Char)) (ts : List TamperInfo) :
    ∀ st, (∀ t ∈ ts, t.hash.take 7 ∈ already) →
      ts.foldl (tamperReportStep enc ctx already) st = st := by
  induction ts with
  | nil => intro st _; rfl
  | cons t0 ts ih =>
    intro st h
    rw [List.foldl_cons,
      show tamperReportStep enc ctx already st t0 = st from by
        unfold tamperReportStep
        rw [if_pos (h t0 (by simp))]]
    exact ih st (fun t' ht' => h t' (by simp [ht']))

/-- C5.  Over an unchanged commit history, running the tamper-scan-and-report
step a second time appends nothing: every suspicious commit's recorded
7-character short hash is recognized in the already-reported set rebuilt
from the store the first run wrote.  The codec must round-trip the warning
entries the first run encrypted, and the suspicious commits' hashes must be
git hashes (at least 7 characters of lowercase hex). -/
theorem tamper_scan_idempotent (dec : List Char → Option LogEntry)
    (enc : LogEntry → List Char) (ctx1 ctx2 : Ctx) (commits : List Commit)
    (store0 : Option (List EncryptedRecord))
    (hrt : ∀ t ∈ checkForTampering commits,
      dec (enc (tamperEntry ctx1 t)) = some (tamperEntry ctx1 t))
    (hok : ∀ t ∈ checkForTampering commits,
      (t.hash.take 7).length = 7 ∧ (t.hash.take 7).all hexLower = true) :
    tamperStep dec enc ctx2 commits (tamperStep dec enc ctx1 commits store0) =
      tamperStep dec enc ctx1 commits store0 := by
  unfold tamperStep
  apply reportFold_skip
  intro t ht
  exact reportFold_logged dec enc ctx1 (getLoggedTamperCommits dec store0)
    (checkForTampering commits) store0 (fun x hx => hx) hrt hok t ht

/-! ## Orchestrator (functions `confirmCommand`, `main` of sudo-logger.js) -/

/-- ASCII lowercasing, the embedding of `String.toLowerCase` on the ASCII
range (other characters are left unchanged). -/
def jsLower (s : String) : String :=
  String.mk (s.data.map
    (fun c => if 'A' ≤ c ∧ c ≤ 'Z' then Char.ofNat (c.toNat + 32) else c))

/-- The decision made on the prompt answer inside `confirmCommand`:
affirmative exactly when the lowercased answer is `y` or `yes`. -/
def affirmative (answer : String) : Bool :=
  (jsLower answer == "y") || (jsLower answer == "yes")

/-- Embedding of `args.join(' ')`. -/
def joinSpace : List String → List Char
  | [] => []
  | [a] => a.data
  | a :: rest => a.data ++ ' ' :: joinSpace rest

/-- How an invocation of `main` ends: `process.exit(code)`, or handing the
terminal to `execSudo(args)`. -/
inductive Outcome where
  | exited (code : Nat)
  | execSudo (args : List String)
deriving DecidableEq

/-- The external inputs one invocation of `main` observes: the command-line
arguments, the raw confirmation answer, whether `pullFromGitHub` and
`pushToGitHub` succeed, the commit history of the log file, and the ambient
context. -/
structure Env where
  args : List String
  answer : String
  pullOk : Bool
  pushOk : Bool
  commits : List Commit
  ctx : Ctx

/-- Embedding of `main()`: usage check, confirmation, pull, tamper scan and
report, ordinary entry logging, push, and only then `execSudo`.  Returns the
outcome together with the final store state. -/
def mainRun (dec : List Char → Option LogEntry) (enc : LogEntry → List Char)
    (env : Env) (store0 : Option (List EncryptedRecord)) :
    Outcome × Option (List EncryptedRecord) :=
  if env.args.isEmpty then (.exited 1, store0)
  else if !(affirmative env.answer) then (.exited 0, store0)
  else if !env.pullOk then (.exited 1, store0)
  else
    let store1 := tamperStep dec enc env.ctx env.commits store0
    let store2 := some (saveToRepo store1
      (enc (createLogEntry env.ctx (joinSpace env.args))))
    if !env.pushOk then (.exited 1, store2)
    else (.execSudo env.args, store2)

/-- C1.  If `pushToGitHub` fails, `execSudo` is never reached: the
invocation terminates through `process.exit`. -/
theorem push_gates_execution (dec : List Char → Option LogEntry)
    (enc : LogEntry → List Char) (env : Env)
    (store0 : Option (List EncryptedRecord)) (h : env.pushOk = false) :
    (∃ code, (mainRun dec enc env store0).1 = Outcome.exited code) ∧
    ∀ a, (mainRun dec enc env store0).1 ≠ Outcome.execSudo a := by
  have hex : ∃ code, (mainRun dec enc env store0).1 = Outcome.exited code := by
    by_cases h1 : env.args.isEmpty
    · exact ⟨1, by simp [mainRun, h1]⟩
    · by_cases h2 : affirmative env.answer
      · by_cases h3 : env.pullOk
        · exact ⟨1, by simp [mainRun, h1, h2, h3, h]⟩
        · exact ⟨1, by simp [mainRun, h1, h2, h3]⟩
      · exact ⟨0, by simp [mainRun, h1, h2]⟩
  refine ⟨hex, ?_⟩
  rcases hex with ⟨code, hc⟩
  intro a ha
  rw [hc] at ha
  exact Outcome.noConfusion ha

/-- C7.  If the pull step fails, the invocation exits with status 1 before
any log write: the store is returned unchanged and `execSudo` is not
reached. -/
theorem pull_failure_aborts (dec : List Char → Option LogEntry)
    (enc : LogEntry → List Char) (env : Env)
    (store0 : Option (List EncryptedRecord)) (h1 : env.args ≠ [])
    (h2 : affirmative env.answer = true) (h3 : env.pullOk = false) :
    mainRun dec enc env store0 = (Outcome.exited 1, store0) := by
  simp [mainRun, List.isEmpty_eq_true, h1, h2, h3]

/-- C9, amended.  Early aborts at the usage check, at pull and at push exit
with the non-zero status 1 and without reaching `execSudo`; declining the
confirmation also terminates without reaching `execSudo`, but with exit
status 0 rather than non-zero. -/
theorem abort_statuses (dec : List Char → Option LogEntry)
    (enc : LogEntry → List Char) (env : Env)
    (store0 : Option (List EncryptedRecord)) :
    (env.args = [] → mainRun dec enc env store0 = (Outcome.exited 1, store0)) ∧
    (env.args ≠ [] → affirmative env.answer = false →
      mainRun dec enc env store0 = (Outcome.exited 0, store0)) ∧
    (env.args ≠ [] → affirmative env.answer = true → env.pullOk = false →
      mainRun dec enc env store0 = (Outcome.exited 1, store0)) ∧
    (env.args ≠ [] → affirmative env.answer = true → env.pullOk = true →
      env.pushOk = false →
      ∃ st, mainRun dec enc env store0 = (Outcome.exited 1, st)) := by
  refine ⟨?_, ?_, ?_, ?_⟩
  · intro h
    simp [mainRun, List.isEmpty_eq_true, h]
  · intro h1 h2
    simp [mainRun, List.isEmpty_eq_true, h1, h2]
  · intro h1 h2 h3
    simp [mainRun, List.isEmpty_eq_true, h1, h2, h3]
  · intro h1 h2 h3 h4
    refine ⟨some (saveToRepo (tamperStep dec enc env.ctx env.commits store0)
      (enc (createLogEntry env.ctx (joinSpace env.args)))), ?_⟩
    simp [mainRun, List.isEmpty_eq_true, h1, h2, h3, h4]

/-- C10.  The confirmation answer is affirmative exactly when it lowercases
to `y` or `yes`; answers with extra whitespace or other characters, and the
empty answer, decline. -/
theorem confirm_affirmative_iff :
    (∀ answer : String, affirmative answer = true ↔
      (jsLower answer = "y" ∨ jsLower answer = "yes")) ∧
    affirmative "y " = false ∧ affirmative "Y es" = false ∧
    affirmative "" = false ∧ affirmative "YES" = true ∧
    affirmative "Y" = true := by
  refine ⟨?_, by decide, by decide, by decide, by decide, by decide⟩
  intro answer
  simp [affirmative, Bool.or_eq_true, beq_iff_eq]

/-! ## Concrete fixtures for witnesses -/

/-- A concrete invocation context. -/
def ctx0 : Ctx :=
  { timestamp := "2025-01-02T03:04:05Z".data, user := "root".data,
    hostname := "box".data, cwd := "/root".data }

/-- A diff deleting four lines and adding none. -/
def tamperedDiff : List Char := "-a\n-b\n-c\n-d".data

/-- A commit whose diff is net-deleting: suspicious. -/
def tamperedCommit : Commit :=
  { hash := "abcdef0123".data, author := "eve".data, date := "2025".data,
    message := "edit".data, diff := some tamperedDiff }

/-- The tamper record `checkForTampering` derives from `tamperedCommit`. -/
def tInfo0 : TamperInfo :=
  { hash := "abcdef0123".data, author := "eve".data, date := "2025".data,
    deletions := 2, message := "edit".data }

/-- A concrete entry encoder for witnesses: an entry is represented by its
command field. -/
def encToy : LogEntry → List Char := fun e => e.command

/-- A concrete decoder matching `encToy` on the one entry the C5 witness
writes. -/
def decToy : List Char → Option LogEntry := fun _ => some (tamperEntry ctx0 tInfo0)

/-- Witness for C5 at a concrete history with one suspicious commit. -/
theorem tamper_scan_idempotent_witness :
    tamperStep decToy encToy ctx0 [tamperedCommit]
      (tamperStep decToy encToy ctx0 [tamperedCommit] none) =
      tamperStep decToy encToy ctx0 [tamperedCommit] none :=
  tamper_scan_idempotent decToy encToy ctx0 ctx0 [tamperedCommit] none
    (by decide) (by decide)

/-- Environment: no arguments given. -/
def envUsage : Env :=
  { args := [], answer := "y", pullOk := true, pushOk := true,
    commits := [], ctx := ctx0 }

/-- Environment: the user declines the confirmation. -/
def envDecline : Env :=
  { args := ["apt", "update"], answer := "n", pullOk := true, pushOk := true,
    commits := [], ctx := ctx0 }

/-- Environment: the pull fails. -/
def envPullFail : Env :=
  { args := ["apt"], answer := "yes", pullOk := false, pushOk := true,
    commits := [], ctx := ctx0 }

/-- Environment: the push fails. -/
def envPushFail : Env :=
  { args := ["apt"], answer := "y", pullOk := true, pushOk := false,
    commits := [], ctx := ctx0 }

/-- Witness for C1 at a concrete failing push. -/
theorem push_gates_execution_witness :
    envPushFail.pushOk = false ∧
    ((∃ code, (mainRun decToy encToy envPushFail none).1 = Outcome.exited code) ∧
      ∀ a, (mainRun decToy encToy envPushFail none).1 ≠ Outcome.execSudo a) :=
  ⟨rfl, push_gates_execution decToy encToy envPushFail none rfl⟩

/-- Witness for C7 at a concrete failing pull. -/
theorem pull_failure_aborts_witness :
    mainRun decToy encToy envPullFail none = (Outcome.exited 1, none) :=
  pull_failure_aborts decToy encToy envPullFail none (by decide) (by decide) rfl

/-- C9, counterexample.  Declining the confirmation is an early abort with
no privileged command executed, yet the process exits with status 0, not a
non-zero status as the claim requires. -/
theorem decline_exits_zero :
    mainRun decToy encToy envDecline none = (Outcome.exited 0, none) := by
  decide

/-- Witness for the amended C9, exercising each abort at a concrete
environment. -/
theorem abort_statuses_witness :
    mainRun decToy encToy envUsage none = (Outcome.exited 1, none) ∧
    mainRun decToy encToy envDecline none = (Outcome.exited 0, none) ∧
    mainRun decToy encToy envPullFail none = (Outcome.exited 1, none) ∧
    ∃ st, mainRun decToy encToy envPushFail none = (Outcome.exited 1, st) :=
  ⟨(abort_statuses decToy encToy envUsage none).1 rfl,
    (abort_statuses decToy encToy envDecline none).2.1 (by decide) (by decide),
    (abort_statuses decToy encToy envPullFail none).2.2.1
      (by decide) (by decide) rfl,
    (abort_statuses decToy encToy envPushFail none).2.2.2
      (by decide) (by decide) rfl rfl⟩

end SudoLogger
